import Mathlib

/-!
Shallow embedding of the tesseract repository geometry packer and rotation
math, together with theorems checking the natural-language specification
against the code.

The geometry packer (addPolygon and the buffer objects of the polyhedron
variants) is embedded over exact rationals; typed-array writes are modelled
as bounds-checked writes that return a RangeError, matching the semantics
of TypedArray.prototype.set.  The rotation and projection math is embedded
over the real numbers, the idealized semantics of the float code.
-/

namespace Tesseract

/-! ### JavaScript integer primitives

The packer uses the 32-bit coercions of the JS operators `|0`, `<<` and `|`,
and the 16-bit store coercion of Uint16Array. -/

/-- ToUint32: value of an integer reinterpreted as an unsigned 32-bit word. -/
def toUint32 (n : ℤ) : ℕ := (n % (2 ^ 32 : ℤ)).toNat

/-- ToInt32: value of an integer wrapped to signed 32-bit two's complement. -/
def toInt32 (n : ℤ) : ℤ := (n + 2 ^ 31) % 2 ^ 32 - 2 ^ 31

/-- ToUint16: the coercion applied by a store into a Uint16Array. -/
def toUint16 (n : ℕ) : ℕ := n % 2 ^ 16

/-- The JS left-shift `a << k` for a shift amount already reduced mod 32. -/
def jsShl (a : ℤ) (k : ℕ) : ℤ := toInt32 (a * 2 ^ k)

/-- The JS bitwise-or `a | b`. -/
def jsOr (a b : ℤ) : ℤ := toInt32 ((toUint32 a) ||| (toUint32 b))

/-- JS Math.round: round half toward positive infinity. -/
def jsRound (q : ℚ) : ℤ := ⌊q + 1 / 2⌋

/-! ### Typed arrays

A typed array is a fixed-size store.  `JsArray.set` models
`TypedArray.prototype.set(src, offset)`: it throws a RangeError when the
write would run past the end of the array, and otherwise overwrites the
`src.length` cells starting at `offset`, leaving every other cell alone. -/

/-- A fixed-size typed-array view: a size and the cell contents. -/
structure JsArray (α : Type) where
  size : ℕ
  data : ℕ → α

/-- Models TypedArray.prototype.set(src, offset): bounds-checked block write. -/
def JsArray.set {α : Type} (arr : JsArray α) (src : List α) (offset : ℕ) :
    Except String (JsArray α) :=
  if offset + src.length ≤ arr.size then
    .ok ⟨arr.size, fun j =>
      if offset ≤ j ∧ j < offset + src.length then src.getD (j - offset) (arr.data j)
      else arr.data j⟩
  else
    .error "RangeError"

/-! ### The buffers object

`initBuffers` allocates `new ArrayBuffer(20 * 64)` together with a
`Float32Array` view and a `Uint32Array` view of it (320 four-byte cells
each), and `new Uint16Array(128)` for the indices.  The two views alias the
same 1280 bytes; the packer writes floats only at cell indices `5k`..`5k+2`
and words only at `5k+3`, `5k+4`, so the two views are kept as two stores
over the same cell indexing, with disjoint write footprints. -/

/-- The mutable buffer state threaded through addPolygon. -/
structure Buffers where
  vertexFloats : JsArray ℚ
  vertexWords : JsArray ℤ
  indexArray : JsArray ℕ
  vertexCount : ℕ
  indexCount : ℕ

/-- The freshly allocated buffers of initBuffers: stride 20, 64 vertices
(320 four-byte cells) and 128 two-byte indices, all zero, counters zero. -/
def emptyBuffers : Buffers where
  vertexFloats := ⟨320, fun _ => 0⟩
  vertexWords := ⟨320, fun _ => 0⟩
  indexArray := ⟨128, fun _ => 0⟩
  vertexCount := 0
  indexCount := 0

/-! ### addPolygon (indexed triangle-fan variant)

Embeds the addPolygon of the polyhedron sources: cross product of the two
edge vectors spanned by the first three points, normal quantization biased
into an unsigned byte, and the vertex/index write loop. -/

/-- The cross product computed by addPolygon from the flat point list:
`v0 = points[3..5] - points[0..2]`, `v1 = points[6..8] - points[0..2]`,
result `v0 × v1`. -/
def crossNormal (points : List ℚ) : ℚ × ℚ × ℚ :=
  let v0x := points.getD 3 0 - points.getD 0 0
  let v0y := points.getD 4 0 - points.getD 1 0
  let v0z := points.getD 5 0 - points.getD 2 0
  let v1x := points.getD 6 0 - points.getD 0 0
  let v1y := points.getD 7 0 - points.getD 1 0
  let v1z := points.getD 8 0 - points.getD 2 0
  (v0y * v1z - v1y * v0z, v0z * v1x - v1z * v0x, v0x * v1y - v1x * v0y)

/-- Component `i` of a cross-product triple, as `cross[i]` in the source. -/
def crossGet (c : ℚ × ℚ × ℚ) (i : ℕ) : ℚ :=
  if i = 0 then c.1 else if i = 1 then c.2.1 else c.2.2

/-- The nested conditional picking `max_ind`, the index of the component of
largest absolute value. -/
def maxInd (c : ℚ × ℚ × ℚ) : ℕ :=
  if |c.1| > |c.2.1| then (if |c.1| > |c.2.2| then 0 else 2)
  else (if |c.2.1| > |c.2.2| then 1 else 2)

/-- The unsigned-biased quantization of the raw normal:
`scale = 1 / |cross[max_ind]|` and each component becomes
`Math.round((c * scale + 1.0) * 127.5)`. -/
def quantize (c : ℚ × ℚ × ℚ) : ℤ × ℤ × ℤ :=
  let scale := 1 / |crossGet c (maxInd c)|
  (jsRound ((c.1 * scale + 1) * 127.5),
   jsRound ((c.2.1 * scale + 1) * 127.5),
   jsRound ((c.2.2 * scale + 1) * 127.5))

/-- The packed normal word, nx OR (ny shifted by 8) OR (nz shifted by 16). -/
def packNormal (n : ℤ × ℤ × ℤ) : ℤ :=
  jsOr (jsOr n.1 (jsShl n.2.1 8)) (jsShl n.2.2 16)

/-- The `normal` local of addPolygon: quantized and packed cross product. -/
def polygonNormal (points : List ℚ) : ℤ :=
  packNormal (quantize (crossNormal points))

/-- One iteration of the addPolygon write loop, at loop index `i`: write the
three position floats at cell `vertexCount * 5`, the normal and color words
at cells `vertexCount * 5 + 3` and `+ 4`, then for `i > 1` the triangle
`[index0, vertexCount - 1, vertexCount]` at the index cursor, and finally
advance `vertexCount`. -/
def stepVertex (norm_color : ℤ × ℤ) (points : List ℚ) (index0 i : ℕ)
    (b : Buffers) : Except String Buffers :=
  match b.vertexFloats.set ((points.drop (i * 3)).take 3) (b.vertexCount * 5) with
  | .error e => .error e
  | .ok floatBuffer =>
    match b.vertexWords.set [norm_color.1, norm_color.2] (b.vertexCount * 5 + 3) with
    | .error e => .error e
    | .ok uint32Buffer =>
      let b1 := { b with vertexFloats := floatBuffer, vertexWords := uint32Buffer }
      if 1 < i then
        match b1.indexArray.set
            [toUint16 index0, toUint16 (b1.vertexCount - 1), toUint16 b1.vertexCount]
            b1.indexCount with
        | .error e => .error e
        | .ok ia =>
          .ok { b1 with indexArray := ia, indexCount := b1.indexCount + 3,
                        vertexCount := b1.vertexCount + 1 }
      else
        .ok { b1 with vertexCount := b1.vertexCount + 1 }

/-- The `for (var i = 0; ...)` loop of addPolygon, with the remaining
iteration count as fuel. -/
def addPolygonLoop (norm_color : ℤ × ℤ) (points : List ℚ) (index0 : ℕ) :
    ℕ → ℕ → Buffers → Except String Buffers
  | _, 0, b => .ok b
  | i, fuel + 1, b =>
    match stepVertex norm_color points index0 i b with
    | .error e => .error e
    | .ok b1 => addPolygonLoop norm_color points index0 (i + 1) fuel b1

/-- addPolygon of the indexed (polyhedron) sources: compute the packed
normal and color pair, then run the write loop for `(points.length / 3) | 0`
iterations starting at the current vertex cursor. -/
def addPolygon (buffers : Buffers) (color : ℤ) (points : List ℚ) :
    Except String Buffers :=
  let color := toInt32 color
  let normal := polygonNormal points
  let norm_color := (normal, color)
  let index0 := buffers.vertexCount
  addPolygonLoop norm_color points index0 0 (points.length / 3) buffers

/-- Pack a whole list of (color, points) polygons into fresh buffers, the
way initBuffers feeds its six faces to addPolygon one after the other. -/
def packPolygons (polys : List (ℤ × List ℚ)) : Except String Buffers :=
  polys.foldlM (fun b p => addPolygon b p.1 p.2) emptyBuffers

/-- The front face quad of the cube model in initBuffers. -/
def frontFace : List ℚ :=
  [-1, -1, 1, 1, -1, 1, 1, 1, 1, -1, 1, 1]

/-! ### Lemmas about the integer primitives -/

lemma toInt32_eq_self {n : ℤ} (h1 : -2 ^ 31 ≤ n) (h2 : n < 2 ^ 31) :
    toInt32 n = n := by
  unfold toInt32
  rw [Int.emod_eq_of_lt (by omega) (by omega)]
  omega

lemma toUint32_eq_toNat {n : ℤ} (h1 : 0 ≤ n) (h2 : n < 2 ^ 32) :
    toUint32 n = n.toNat := by
  unfold toUint32
  rw [Int.emod_eq_of_lt h1 h2]

/-- Or-ing a value below `2 ^ k` with a multiple of `2 ^ k` is plain
addition: the bit ranges are disjoint. -/
lemma nat_lor_eq_add {a b : ℕ} (k : ℕ) (ha : a < 2 ^ k) :
    a ||| (b * 2 ^ k) = a + b * 2 ^ k := by
  rw [Nat.lor_comm, Nat.mul_comm b, ← Nat.mul_add_lt_is_or ha b]
  ring

/-- The packed normal word is the base-256 juxtaposition of the three bytes
whenever each quantized component is in `[0, 255]`: no bit ranges overlap. -/
lemma packNormal_disjoint {nx ny nz : ℤ}
    (hx0 : 0 ≤ nx) (hx : nx ≤ 255) (hy0 : 0 ≤ ny) (hy : ny ≤ 255)
    (hz0 : 0 ≤ nz) (hz : nz ≤ 255) :
    packNormal (nx, ny, nz) = nx + 256 * ny + 65536 * nz := by
  have h8 : jsShl ny 8 = ny * 256 := by
    unfold jsShl
    exact toInt32_eq_self (by norm_num; omega) (by norm_num; omega)
  have h16 : jsShl nz 16 = nz * 65536 := by
    unfold jsShl
    exact toInt32_eq_self (by norm_num; omega) (by norm_num; omega)
  have hOr1 : jsOr nx (ny * 256) = nx + 256 * ny := by
    unfold jsOr
    rw [toUint32_eq_toNat hx0 (by omega), toUint32_eq_toNat (by omega) (by omega)]
    have e : (ny * 256).toNat = ny.toNat * 256 := by omega
    have e2 : nx.toNat ||| (ny.toNat * 256) = nx.toNat + ny.toNat * 256 := by
      have := nat_lor_eq_add (a := nx.toNat) (b := ny.toNat) 8 (by omega)
      simpa using this
    rw [e, e2]
    rw [toInt32_eq_self (by push_cast; omega) (by push_cast; omega)]
    push_cast
    omega
  have hOr2 : jsOr (nx + 256 * ny) (nz * 65536) = nx + 256 * ny + 65536 * nz := by
    unfold jsOr
    rw [toUint32_eq_toNat (by omega) (by omega), toUint32_eq_toNat (by omega) (by omega)]
    have e : (nz * 65536).toNat = nz.toNat * 65536 := by omega
    have e2 : (nx + 256 * ny).toNat ||| (nz.toNat * 65536) =
        (nx + 256 * ny).toNat + nz.toNat * 65536 := by
      have := nat_lor_eq_add (a := (nx + 256 * ny).toNat) (b := nz.toNat) 16 (by omega)
      simpa using this
    rw [e, e2]
    rw [toInt32_eq_self (by push_cast; omega) (by push_cast; omega)]
    push_cast
    omega
  show jsOr (jsOr nx (jsShl ny 8)) (jsShl nz 16) = nx + 256 * ny + 65536 * nz
  rw [h8, h16, hOr1, hOr2]

/-! ### The dominant component and the quantization range -/

/-- The nested conditional of `max_ind` really selects a component of
maximal absolute value. -/
lemma crossGet_maxInd_is_max (c : ℚ × ℚ × ℚ) :
    |c.1| ≤ |crossGet c (maxInd c)| ∧ |c.2.1| ≤ |crossGet c (maxInd c)| ∧
      |c.2.2| ≤ |crossGet c (maxInd c)| := by
  unfold maxInd crossGet
  split_ifs with h1 h2 h3 <;> refine ⟨?_, ?_, ?_⟩ <;> simp_all <;> linarith

/-- Rounding `(x * (1 / m) + 1) * 127.5` lands in `[0, 255]` when
`|x| ≤ m` and `0 < m`. -/
lemma jsRound_quant_range {x m : ℚ} (hm : 0 < m) (hx : |x| ≤ m) :
    0 ≤ jsRound ((x * (1 / m) + 1) * 127.5) ∧
      jsRound ((x * (1 / m) + 1) * 127.5) ≤ 255 := by
  rw [abs_le] at hx
  have hlo : -1 ≤ x * (1 / m) := by
    rw [mul_one_div]
    rw [le_div_iff hm]
    linarith
  have hhi : x * (1 / m) ≤ 1 := by
    rw [mul_one_div]
    rw [div_le_one hm]
    exact hx.2
  have hval0 : 0 ≤ (x * (1 / m) + 1) * 127.5 := by nlinarith
  have hval1 : (x * (1 / m) + 1) * 127.5 ≤ 255 := by nlinarith
  unfold jsRound
  constructor
  · rw [Int.floor_nonneg]
    linarith
  · have : ⌊(x * (1 / m) + 1) * 127.5 + 1 / 2⌋ < 256 := by
      rw [Int.floor_lt]
      push_cast
      linarith
    omega

/-- Each quantized component of a normal with a nonzero dominant component
is an integer in `[0, 255]`. -/
lemma quantize_range (c : ℚ × ℚ × ℚ) (h : crossGet c (maxInd c) ≠ 0) :
    (0 ≤ (quantize c).1 ∧ (quantize c).1 ≤ 255) ∧
      (0 ≤ (quantize c).2.1 ∧ (quantize c).2.1 ≤ 255) ∧
      (0 ≤ (quantize c).2.2 ∧ (quantize c).2.2 ≤ 255) := by
  have hm : 0 < |crossGet c (maxInd c)| := abs_pos.mpr h
  obtain ⟨hx, hy, hz⟩ := crossGet_maxInd_is_max c
  simp only [quantize]
  exact ⟨jsRound_quant_range hm hx, jsRound_quant_range hm hy,
    jsRound_quant_range hm hz⟩

/-- C2: for a cross-product normal with a nonzero dominant component, the
unsigned-biased quantization of addPolygon rounds
`(c * (1 / abs cmax) + 1) * 127.5` where cmax is a component of largest
absolute value, every quantized component lies in `[0, 255]`, and the packed
word `nx OR (ny shifted by 8) OR (nz shifted by 16)` therefore keeps the
three bytes in disjoint bit ranges: it equals
`nx + 256 * ny + 65536 * nz`. -/
theorem quantize_packs_disjoint_bytes (c : ℚ × ℚ × ℚ)
    (h : crossGet c (maxInd c) ≠ 0) :
    (|c.1| ≤ |crossGet c (maxInd c)| ∧ |c.2.1| ≤ |crossGet c (maxInd c)| ∧
        |c.2.2| ≤ |crossGet c (maxInd c)|) ∧
      ((0 ≤ (quantize c).1 ∧ (quantize c).1 ≤ 255) ∧
        (0 ≤ (quantize c).2.1 ∧ (quantize c).2.1 ≤ 255) ∧
        (0 ≤ (quantize c).2.2 ∧ (quantize c).2.2 ≤ 255)) ∧
      packNormal (quantize c) =
        (quantize c).1 + 256 * (quantize c).2.1 + 65536 * (quantize c).2.2 := by
  refine ⟨crossGet_maxInd_is_max c, quantize_range c h, ?_⟩
  obtain ⟨⟨hx0, hx1⟩, ⟨hy0, hy1⟩, hz0, hz1⟩ := quantize_range c h
  have := packNormal_disjoint hx0 hx1 hy0 hy1 hz0 hz1
  simpa using this

/-- Witness for C2 at the raw normal (0, 0, 4) of the front cube face. -/
theorem quantize_packs_disjoint_bytes_witness :
    crossGet (0, 0, 4) (maxInd (0, 0, 4)) ≠ 0 ∧
      packNormal (quantize (0, 0, 4)) =
        (quantize (0, 0, 4)).1 + 256 * (quantize (0, 0, 4)).2.1 +
          65536 * (quantize (0, 0, 4)).2.2 :=
  ⟨by decide, (quantize_packs_disjoint_bytes (0, 0, 4) (by decide)).2.2⟩

/-! ### Specification lemmas for the write loop -/

lemma JsArray.set_ok_iff {α : Type} {arr : JsArray α} {src : List α}
    {offset : ℕ} {out : JsArray α} :
    arr.set src offset = .ok out ↔
      offset + src.length ≤ arr.size ∧
        out = ⟨arr.size, fun j =>
          if offset ≤ j ∧ j < offset + src.length then src.getD (j - offset) (arr.data j)
          else arr.data j⟩ := by
  unfold JsArray.set
  split_ifs with h
  · simp only [Except.ok.injEq]
    exact ⟨fun he => ⟨h, he.symm⟩, fun he => he.2.symm⟩
  · simp [h]

/-- Everything a successful `stepVertex` guarantees: the bounds that the
three typed-array writes checked, the counter updates, and the exact cells
each write touched. -/
lemma stepVertex_ok_spec {nc : ℤ × ℤ} {points : List ℚ} {index0 i : ℕ}
    {b b1 : Buffers} (h : stepVertex nc points index0 i b = .ok b1) :
    (b.vertexCount * 5 + ((points.drop (i * 3)).take 3).length ≤ b.vertexFloats.size ∧
      b.vertexCount * 5 + 5 ≤ b.vertexWords.size ∧
      (1 < i → b.indexCount + 3 ≤ b.indexArray.size)) ∧
    (b1.vertexCount = b.vertexCount + 1 ∧
      b1.indexCount = (if 1 < i then b.indexCount + 3 else b.indexCount) ∧
      b1.vertexFloats.size = b.vertexFloats.size ∧
      b1.vertexWords.size = b.vertexWords.size ∧
      b1.indexArray.size = b.indexArray.size) ∧
    ((∀ p, p < b.vertexCount * 5 → b1.vertexFloats.data p = b.vertexFloats.data p) ∧
      (∀ j, j < ((points.drop (i * 3)).take 3).length →
        b1.vertexFloats.data (b.vertexCount * 5 + j) =
          ((points.drop (i * 3)).take 3).getD j 0)) ∧
    ((∀ p, p < b.vertexCount * 5 + 3 → b1.vertexWords.data p = b.vertexWords.data p) ∧
      b1.vertexWords.data (b.vertexCount * 5 + 3) = nc.1 ∧
      b1.vertexWords.data (b.vertexCount * 5 + 4) = nc.2) ∧
    ((∀ p, p < b.indexCount → b1.indexArray.data p = b.indexArray.data p) ∧
      (1 < i →
        b1.indexArray.data b.indexCount = toUint16 index0 ∧
        b1.indexArray.data (b.indexCount + 1) = toUint16 (b.vertexCount - 1) ∧
        b1.indexArray.data (b.indexCount + 2) = toUint16 b.vertexCount)) := by
  unfold stepVertex at h
  rcases hf : b.vertexFloats.set ((points.drop (i * 3)).take 3) (b.vertexCount * 5)
    with _ | floatBuffer
  · rw [hf] at h; exact absurd h (by simp)
  rw [hf] at h
  rcases hw : b.vertexWords.set [nc.1, nc.2] (b.vertexCount * 5 + 3) with _ | uint32Buffer
  · rw [hw] at h; exact absurd h (by simp)
  rw [hw] at h
  obtain ⟨hfbound, rfl⟩ := JsArray.set_ok_iff.mp hf
  obtain ⟨hwbound, rfl⟩ := JsArray.set_ok_iff.mp hw
  simp only [List.length_cons, List.length_nil] at hwbound
  by_cases hi : 1 < i
  · simp only [hi, if_true] at h
    rcases hidx : (Buffers.indexArray b).set
        [toUint16 index0, toUint16 (b.vertexCount - 1), toUint16 b.vertexCount]
        b.indexCount with _ | ia
    · rw [hidx] at h; exact absurd h (by simp)
    rw [hidx] at h
    obtain ⟨hibound, rfl⟩ := JsArray.set_ok_iff.mp hidx
    simp only [List.length_cons, List.length_nil] at hibound
    obtain rfl : _ = b1 := by exact Except.ok.inj h
    refine ⟨⟨hfbound, by omega, fun _ => by omega⟩,
      ⟨rfl, by simp [hi], rfl, rfl, rfl⟩, ⟨?_, ?_⟩, ⟨?_, ?_, ?_⟩, ⟨?_, ?_⟩⟩
    · intro p hp
      simp only [List.length_cons, List.length_nil]
      rw [if_neg (by omega)]
    · intro j hj
      simp only [List.length_cons, List.length_nil]
      rw [if_pos (by omega)]
      have hidxeq : b.vertexCount * 5 + j - b.vertexCount * 5 = j := by omega
      rw [hidxeq, List.getD_eq_getElem?_getD, List.getD_eq_getElem?_getD,
        List.getElem?_eq_getElem hj]
      simp
    · intro p hp
      simp only [List.length_cons, List.length_nil]
      rw [if_neg (by omega)]
    · simp only [List.length_cons, List.length_nil]
      rw [if_pos (by omega)]
      simp
    · simp only [List.length_cons, List.length_nil]
      rw [if_pos (by omega)]
      have : b.vertexCount * 5 + 4 - (b.vertexCount * 5 + 3) = 1 := by omega
      rw [this]
      simp
    · intro p hp
      simp only [List.length_cons, List.length_nil]
      rw [if_neg (by omega)]
    · intro _
      refine ⟨?_, ?_, ?_⟩ <;> simp only [List.length_cons, List.length_nil] <;>
        rw [if_pos (by omega)]
      · simp
      · have : b.indexCount + 1 - b.indexCount = 1 := by omega
        rw [this]; simp
      · have : b.indexCount + 2 - b.indexCount = 2 := by omega
        rw [this]; simp
  · simp only [hi, if_false] at h
    obtain rfl : _ = b1 := by exact Except.ok.inj h
    refine ⟨⟨hfbound, by omega, fun hcon => absurd hcon hi⟩,
      ⟨rfl, by simp [hi], rfl, rfl, rfl⟩, ⟨?_, ?_⟩, ⟨?_, ?_, ?_⟩,
      ⟨fun p _ => rfl, fun hcon => absurd hcon hi⟩⟩
    · intro p hp
      simp only [List.length_cons, List.length_nil]
      rw [if_neg (by omega)]
    · intro j hj
      simp only [List.length_cons, List.length_nil]
      rw [if_pos (by omega)]
      have hidxeq : b.vertexCount * 5 + j - b.vertexCount * 5 = j := by omega
      rw [hidxeq, List.getD_eq_getElem?_getD, List.getD_eq_getElem?_getD,
        List.getElem?_eq_getElem hj]
      simp
    · intro p hp
      simp only [List.length_cons, List.length_nil]
      rw [if_neg (by omega)]
    · simp only [List.length_cons, List.length_nil]
      rw [if_pos (by omega)]
      simp
    · simp only [List.length_cons, List.length_nil]
      rw [if_pos (by omega)]
      have : b.vertexCount * 5 + 4 - (b.vertexCount * 5 + 3) = 1 := by omega
      rw [this]
      simp

/-- Everything a successful run of the addPolygon write loop guarantees:
counter advancement, size preservation, the capacity bounds enforced by the
successful writes, a frame condition below the starting cursors, and the
contents of every cell the loop wrote. -/
lemma addPolygonLoop_ok_spec {nc : ℤ × ℤ} {points : List ℚ} {index0 : ℕ} :
    ∀ (fuel i : ℕ) (b b' : Buffers),
      addPolygonLoop nc points index0 i fuel b = .ok b' →
      (b'.vertexCount = b.vertexCount + fuel ∧
        b'.indexCount = b.indexCount + 3 * (i + fuel - 2 - (i - 2)) ∧
        b'.vertexFloats.size = b.vertexFloats.size ∧
        b'.vertexWords.size = b.vertexWords.size ∧
        b'.indexArray.size = b.indexArray.size) ∧
      ((1 ≤ fuel → b'.vertexCount * 5 ≤ b.vertexWords.size) ∧
        (1 ≤ fuel → 3 ≤ i + fuel → b'.indexCount ≤ b.indexArray.size)) ∧
      ((∀ p, p < b.vertexCount * 5 → b'.vertexFloats.data p = b.vertexFloats.data p) ∧
        (∀ p, p < b.vertexCount * 5 + 3 → b'.vertexWords.data p = b.vertexWords.data p) ∧
        (∀ p, p < b.indexCount → b'.indexArray.data p = b.indexArray.data p)) ∧
      ((∀ k, k < fuel → ∀ j, j < ((points.drop ((i + k) * 3)).take 3).length →
          b'.vertexFloats.data ((b.vertexCount + k) * 5 + j) =
            ((points.drop ((i + k) * 3)).take 3).getD j 0) ∧
        (∀ k, k < fuel →
          b'.vertexWords.data ((b.vertexCount + k) * 5 + 3) = nc.1 ∧
          b'.vertexWords.data ((b.vertexCount + k) * 5 + 4) = nc.2) ∧
        (∀ k, k < fuel → 2 ≤ i + k →
          b'.indexArray.data (b.indexCount + 3 * (i + k - 2 - (i - 2))) = toUint16 index0 ∧
          b'.indexArray.data (b.indexCount + 3 * (i + k - 2 - (i - 2)) + 1) =
            toUint16 (b.vertexCount + k - 1) ∧
          b'.indexArray.data (b.indexCount + 3 * (i + k - 2 - (i - 2)) + 2) =
            toUint16 (b.vertexCount + k))) := by
  intro fuel
  induction fuel with
  | zero =>
    intro i b b' h
    simp only [addPolygonLoop] at h
    obtain rfl : b = b' := Except.ok.inj h
    refine ⟨⟨by omega, by omega, rfl, rfl, rfl⟩, ⟨by omega, by omega⟩,
      ⟨fun _ _ => rfl, fun _ _ => rfl, fun _ _ => rfl⟩,
      ⟨fun k hk => absurd hk (by omega), fun k hk => absurd hk (by omega),
        fun k hk => absurd hk (by omega)⟩⟩
  | succ fuel ih =>
    intro i b b' h
    simp only [addPolygonLoop] at h
    rcases hs : stepVertex nc points index0 i b with _ | b1
    · rw [hs] at h; exact absurd h (by simp)
    rw [hs] at h
    obtain ⟨⟨hsf, hsw, hsi⟩, ⟨hvc1, hic1, hfs1, hws1, his1⟩, ⟨hffr, hfwr⟩,
      ⟨hwfr, hw3, hw4⟩, ⟨hifr, hiw⟩⟩ := stepVertex_ok_spec hs
    obtain ⟨⟨cvc, cic, cfs, cws, cis⟩, ⟨kv, ki⟩, ⟨ff, fw, fi⟩, ⟨wf, ww, wi⟩⟩ :=
      ih (i + 1) b1 b' h
    have hsrc3 : ((points.drop (i * 3)).take 3).length ≤ 3 := by
      simpa using List.length_take_le 3 (points.drop (i * 3))
    have hic2 : (1 < i ∧ b1.indexCount = b.indexCount + 3) ∨
        (¬ 1 < i ∧ b1.indexCount = b.indexCount) := by
      by_cases hi : 1 < i <;> simp [hic1, hi]
    refine ⟨⟨by omega, ?_, by omega, by omega, by omega⟩, ⟨?_, ?_⟩,
      ⟨?_, ?_, ?_⟩, ⟨?_, ?_, ?_⟩⟩
    · rcases hic2 with ⟨hi2, hic'⟩ | ⟨hi2, hic'⟩ <;> omega
    · intro _
      rcases Nat.eq_zero_or_pos fuel with hf | hf
      · subst hf
        omega
      · have := kv hf
        omega
    · intro _ h3
      rcases Nat.eq_zero_or_pos fuel with hf | hf
      · subst hf
        have hi2 : 1 < i := by omega
        have := hsi hi2
        rcases hic2 with ⟨_, hic'⟩ | ⟨hcon, _⟩
        · omega
        · exact absurd hi2 hcon
      · have := ki hf (by omega)
        omega
    · intro p hp
      rw [ff p (by omega), hffr p hp]
    · intro p hp
      rw [fw p (by omega), hwfr p hp]
    · intro p hp
      have hple : p < b1.indexCount := by
        rcases hic2 with ⟨_, h'⟩ | ⟨_, h'⟩ <;> omega
      rw [fi p hple, hifr p hp]
    · intro k hk j hj
      rcases Nat.eq_zero_or_pos k with rfl | hkpos
      · simp only [Nat.add_zero] at hj ⊢
        rw [ff (b.vertexCount * 5 + j) (by omega)]
        exact hfwr j hj
      · obtain ⟨k', rfl⟩ : ∃ k', k = k' + 1 := ⟨k - 1, by omega⟩
        have hw := wf k' (by omega) j (by
          rw [show (i + 1) + k' = i + (k' + 1) from by omega]
          exact hj)
        rw [show (b.vertexCount + (k' + 1)) * 5 + j =
          (b1.vertexCount + k') * 5 + j from by omega]
        rw [hw, show (i + 1) + k' = i + (k' + 1) from by omega]
    · intro k hk
      rcases Nat.eq_zero_or_pos k with rfl | hkpos
      · simp only [Nat.add_zero]
        constructor
        · rw [fw (b.vertexCount * 5 + 3) (by omega)]
          exact hw3
        · rw [fw (b.vertexCount * 5 + 4) (by omega)]
          exact hw4
      · obtain ⟨k', rfl⟩ : ∃ k', k = k' + 1 := ⟨k - 1, by omega⟩
        have hww := ww k' (by omega)
        constructor
        · rw [show (b.vertexCount + (k' + 1)) * 5 + 3 =
            (b1.vertexCount + k') * 5 + 3 from by omega]
          exact hww.1
        · rw [show (b.vertexCount + (k' + 1)) * 5 + 4 =
            (b1.vertexCount + k') * 5 + 4 from by omega]
          exact hww.2
    · intro k hk h2
      rcases Nat.eq_zero_or_pos k with rfl | hkpos
      · have hi2 : 1 < i := by omega
        simp only [Nat.add_zero]
        rcases hic2 with ⟨_, hic'⟩ | ⟨hcon, _⟩
        · obtain ⟨hi0, hi1, hi2v⟩ := hiw hi2
          have hpos0 : b.indexCount + 3 * (i - 2 - (i - 2)) = b.indexCount := by
            omega
          rw [hpos0]
          exact ⟨by rw [fi b.indexCount (by omega)]; exact hi0,
            by rw [fi (b.indexCount + 1) (by omega)]; exact hi1,
            by rw [fi (b.indexCount + 2) (by omega)]; exact hi2v⟩
        · exact absurd hi2 hcon
      · obtain ⟨k', rfl⟩ : ∃ k', k = k' + 1 := ⟨k - 1, by omega⟩
        obtain ⟨wi0, wi1, wi2⟩ := wi k' (by omega) (by omega)
        have hposeq : b.indexCount + 3 * (i + (k' + 1) - 2 - (i - 2)) =
            b1.indexCount + 3 * (i + 1 + k' - 2 - (i + 1 - 2)) := by
          rcases hic2 with ⟨hi2, hic'⟩ | ⟨hi2, hic'⟩ <;> omega
        refine ⟨?_, ?_, ?_⟩
        · rw [hposeq]
          exact wi0
        · rw [show b.indexCount + 3 * (i + (k' + 1) - 2 - (i - 2)) + 1 =
            b1.indexCount + 3 * (i + 1 + k' - 2 - (i + 1 - 2)) + 1 from by omega]
          rw [wi1]
          congr 1
          omega
        · rw [show b.indexCount + 3 * (i + (k' + 1) - 2 - (i - 2)) + 2 =
            b1.indexCount + 3 * (i + 1 + k' - 2 - (i + 1 - 2)) + 2 from by omega]
          rw [wi2]
          congr 1
          omega

/-- The normal rule in the words of the spec: take the first three points
p0, p1, p2 of the polygon, form the edge vectors e0 = p1 - p0 and
e1 = p2 - p0, and take the cross product n = e0 × e1. -/
def specCross (points : List ℚ) : ℚ × ℚ × ℚ :=
  let p0 := (points.getD 0 0, points.getD 1 0, points.getD 2 0)
  let p1 := (points.getD 3 0, points.getD 4 0, points.getD 5 0)
  let p2 := (points.getD 6 0, points.getD 7 0, points.getD 8 0)
  let e0 := (p1.1 - p0.1, p1.2.1 - p0.2.1, p1.2.2 - p0.2.2)
  let e1 := (p2.1 - p0.1, p2.2.1 - p0.2.1, p2.2.2 - p0.2.2)
  (e0.2.1 * e1.2.2 - e0.2.2 * e1.2.1,
   e0.2.2 * e1.1 - e0.1 * e1.2.2,
   e0.1 * e1.2.1 - e0.2.1 * e1.1)

/-- The addPolygon entry point equals the loop run on the packed pair. -/
lemma addPolygon_eq_loop (b : Buffers) (color : ℤ) (points : List ℚ) :
    addPolygon b color points =
      addPolygonLoop (polygonNormal points, toInt32 color) points
        b.vertexCount 0 (points.length / 3) b := rfl

/-- Counter, size and capacity facts of one successful addPolygon call. -/
lemma addPolygon_ok_counts {b b' : Buffers} {color : ℤ} {points : List ℚ}
    (h : addPolygon b color points = .ok b') :
    b'.vertexCount = b.vertexCount + points.length / 3 ∧
    b'.indexCount = b.indexCount + 3 * (points.length / 3 - 2) ∧
    b'.vertexFloats.size = b.vertexFloats.size ∧
    b'.vertexWords.size = b.vertexWords.size ∧
    b'.indexArray.size = b.indexArray.size ∧
    (1 ≤ points.length / 3 → b'.vertexCount * 5 ≤ b.vertexWords.size) ∧
    (3 ≤ points.length / 3 → b'.indexCount ≤ b.indexArray.size) := by
  rw [addPolygon_eq_loop] at h
  obtain ⟨⟨cvc, cic, cfs, cws, cis⟩, ⟨kv, ki⟩, _, _⟩ :=
    addPolygonLoop_ok_spec (points.length / 3) 0 b b' h
  exact ⟨cvc, by omega, cfs, cws, cis, fun h1 => kv h1,
    fun h3 => ki (by omega) (by omega)⟩

/-- C1: for every polygon accepted by addPolygon, the raw pre-quantization
normal is the cross product of the edges e0 = p1 - p0, e1 = p2 - p0 of the
first three points only, and the one packed quantization of that single
cross product is the normal word written into the record of every vertex of
the polygon; on the front-face quad the raw normal is (0, 0, 4). -/
theorem addPolygon_flat_normal {b b' : Buffers} {color : ℤ} {points : List ℚ}
    {n : ℕ} (hlen : points.length = 3 * n)
    (h : addPolygon b color points = .ok b') :
    crossNormal points = specCross points ∧
    (∀ i, i < n → b'.vertexWords.data ((b.vertexCount + i) * 5 + 3) =
      packNormal (quantize (crossNormal points))) ∧
    crossNormal frontFace = (0, 0, 4) := by
  have hdiv : points.length / 3 = n := by omega
  rw [addPolygon_eq_loop, hdiv] at h
  obtain ⟨_, _, _, ⟨_, ww, _⟩⟩ := addPolygonLoop_ok_spec n 0 b b' h
  refine ⟨?_, ?_, by norm_num [crossNormal, frontFace]⟩
  · simp only [crossNormal, specCross]
    refine Prod.ext ?_ (Prod.ext ?_ ?_) <;> simp <;> ring
  · intro i hi
    exact (ww i hi).1

/-- Witness for C1: the front face written into fresh buffers; the normal
word of the fourth vertex record is the packed quantized cross product. -/
theorem addPolygon_flat_normal_witness :
    frontFace.length = 3 * 4 ∧
    (addPolygon emptyBuffers 255 frontFace).map
        (fun b' => b'.vertexWords.data ((emptyBuffers.vertexCount + 3) * 5 + 3)) =
      .ok (packNormal (quantize (crossNormal frontFace))) := by
  refine ⟨by decide, ?_⟩
  have hok : (addPolygon emptyBuffers 255 frontFace).isOk = true := by rfl
  cases hEq : addPolygon emptyBuffers 255 frontFace with
  | error e => rw [hEq] at hok; simp [Except.isOk, Except.toBool] at hok
  | ok b' =>
    obtain ⟨_, hw, _⟩ := addPolygon_flat_normal (n := 4) (by decide) hEq
    simp only [Except.map, Except.ok.injEq]
    exact hw 3 (by omega)

/-- C3: a successful indexed addPolygon call with pointCount ≥ 3 appends
exactly pointCount vertex records starting at the vertex cursor, appends
pointCount - 2 triangle-fan triangles referencing (first, cursor - 1,
cursor) for each new vertex beyond the second, and advances the vertex
cursor by pointCount and the index cursor by 3 * (pointCount - 2). -/
theorem addPolygon_fan_append {b b' : Buffers} {color : ℤ} {points : List ℚ}
    {n : ℕ} (hlen : points.length = 3 * n) (hn : 3 ≤ n)
    (h : addPolygon b color points = .ok b') :
    b'.vertexCount = b.vertexCount + n ∧
    b'.indexCount = b.indexCount + 3 * (n - 2) ∧
    (∀ i, i < n → ∀ j, j < 3 →
      b'.vertexFloats.data ((b.vertexCount + i) * 5 + j) =
        points.getD (i * 3 + j) 0) ∧
    (∀ i, i < n →
      b'.vertexWords.data ((b.vertexCount + i) * 5 + 3) = polygonNormal points ∧
      b'.vertexWords.data ((b.vertexCount + i) * 5 + 4) = toInt32 color) ∧
    (∀ k, k < n - 2 →
      b'.indexArray.data (b.indexCount + 3 * k) = toUint16 b.vertexCount ∧
      b'.indexArray.data (b.indexCount + 3 * k + 1) =
        toUint16 (b.vertexCount + k + 1) ∧
      b'.indexArray.data (b.indexCount + 3 * k + 2) =
        toUint16 (b.vertexCount + k + 2)) := by
  have hdiv : points.length / 3 = n := by omega
  rw [addPolygon_eq_loop, hdiv] at h
  obtain ⟨⟨cvc, cic, _, _, _⟩, _, _, ⟨wf, ww, wi⟩⟩ :=
    addPolygonLoop_ok_spec n 0 b b' h
  refine ⟨cvc, by omega, ?_, ?_, ?_⟩
  · intro i hi j hj
    have hlen3 : ((points.drop ((0 + i) * 3)).take 3).length = 3 := by
      apply List.length_take_of_le
      rw [List.length_drop, hlen]
      omega
    have hcell := wf i hi j (by rw [hlen3]; exact hj)
    rw [hcell]
    rw [List.getD_eq_getElem?_getD, List.getD_eq_getElem?_getD,
      List.getElem?_take_of_lt hj, List.getElem?_drop]
    congr 2
    omega
  · intro i hi
    exact ww i hi
  · intro k hk
    obtain ⟨w0, w1, w2⟩ := wi (k + 2) (by omega) (by omega)
    rw [show 0 + (k + 2) - 2 - (0 - 2) = k from by omega] at w0 w1 w2
    rw [show b.vertexCount + (k + 2) - 1 = b.vertexCount + k + 1 from by omega] at w1
    rw [show b.vertexCount + (k + 2) = b.vertexCount + k + 2 from by omega] at w2
    exact ⟨w0, w1, w2⟩

/-- Witness for C3: the front face appended to fresh buffers advances the
vertex cursor by 4 and the index cursor by 6. -/
theorem addPolygon_fan_append_witness :
    frontFace.length = 3 * 4 ∧ 3 ≤ 4 ∧
    (addPolygon emptyBuffers 255 frontFace).map
        (fun b' => (b'.vertexCount, b'.indexCount)) =
      .ok (emptyBuffers.vertexCount + 4, emptyBuffers.indexCount + 3 * (4 - 2)) := by
  refine ⟨by decide, by decide, ?_⟩
  have hok : (addPolygon emptyBuffers 255 frontFace).isOk = true := by rfl
  cases hEq : addPolygon emptyBuffers 255 frontFace with
  | error e => rw [hEq] at hok; simp [Except.isOk, Except.toBool] at hok
  | ok b' =>
    obtain ⟨h1, h2, _⟩ := addPolygon_fan_append (n := 4) (by decide) (by decide) hEq
    simp only [Except.map, Except.ok.injEq]
    rw [h1, h2]

/-- Success of a whole packing run keeps both cursors within the fixed
64-vertex / 128-index capacity, and the final cursors are the cumulative
sums over the polygons. -/
lemma foldl_addPolygon_ok_spec :
    ∀ (ps : List (ℤ × List ℚ)) (b b' : Buffers),
      b.vertexWords.size = 320 → b.indexArray.size = 128 →
      b.vertexCount ≤ 64 → b.indexCount ≤ 128 →
      ps.foldlM (fun b p => addPolygon b p.1 p.2) b = .ok b' →
      b'.vertexCount = b.vertexCount + (ps.map (fun p => p.2.length / 3)).sum ∧
      b'.indexCount = b.indexCount +
        (ps.map (fun p => 3 * (p.2.length / 3 - 2))).sum ∧
      b'.vertexCount ≤ 64 ∧ b'.indexCount ≤ 128 := by
  intro ps
  induction ps with
  | nil =>
    intro b b' _ _ hv hi h
    obtain rfl : b = b' := Except.ok.inj h
    simpa using ⟨hv, hi⟩
  | cons p ps ih =>
    intro b b' hws his hv hi h
    rw [List.foldlM_cons] at h
    rcases hstep : addPolygon b p.1 p.2 with _ | b1
    · rw [hstep] at h
      simp only [bind, Except.bind] at h
      exact absurd h (by simp)
    rw [hstep] at h
    simp only [bind, Except.bind] at h
    obtain ⟨c1, c2, _, cws, cis, k1, k2⟩ := addPolygon_ok_counts hstep
    have hb1v : b1.vertexCount ≤ 64 := by
      rcases Nat.eq_zero_or_pos (p.2.length / 3) with hz | hpos
      · omega
      · have := k1 hpos
        omega
    have hb1i : b1.indexCount ≤ 128 := by
      rcases Nat.lt_or_ge (p.2.length / 3) 3 with hlt | hge
      · have : p.2.length / 3 - 2 = 0 := by omega
        omega
      · have := k2 hge
        omega
    obtain ⟨r1, r2, r3, r4⟩ := ih b1 b' (by omega) (by omega) hb1v hb1i h
    refine ⟨?_, ?_, r3, r4⟩
    · simp only [List.map_cons, List.sum_cons]
      omega
    · simp only [List.map_cons, List.sum_cons]
      omega

/-- C4: a packing run whose cumulative vertex count exceeds the 64-vertex
capacity, or whose cumulative index count exceeds the 128-index capacity,
fails with a capacity error (the bounds-checked writes refuse to touch
memory outside the buffer). -/
theorem packPolygons_capacity_error (ps : List (ℤ × List ℚ))
    (h : 64 < (ps.map (fun p => p.2.length / 3)).sum ∨
      128 < (ps.map (fun p => 3 * (p.2.length / 3 - 2))).sum) :
    ∃ e, packPolygons ps = .error e := by
  cases hE : packPolygons ps with
  | error e => exact ⟨e, rfl⟩
  | ok b' =>
    exfalso
    have hE' : ps.foldlM (fun b p => addPolygon b p.1 p.2) emptyBuffers = .ok b' := hE
    obtain ⟨h1, h2, h3, h4⟩ := foldl_addPolygon_ok_spec ps emptyBuffers b'
      rfl rfl (by norm_num [emptyBuffers]) (by norm_num [emptyBuffers]) hE'
    have hv0 : emptyBuffers.vertexCount = 0 := rfl
    have hi0 : emptyBuffers.indexCount = 0 := rfl
    omega

/-- Witness for C4: seventeen quads are 68 vertices, over the capacity. -/
theorem packPolygons_capacity_error_witness :
    64 < ((List.replicate 17 ((255 : ℤ), frontFace)).map
        (fun p => p.2.length / 3)).sum ∧
      ∃ e, packPolygons (List.replicate 17 ((255 : ℤ), frontFace)) = .error e :=
  ⟨by decide, packPolygons_capacity_error _ (Or.inl (by decide))⟩

/-! ### Rotation math

The demo rotation, the interactive drag rotation and the projection vector
of the render loop, embedded over the real numbers. -/

/-- A 3x3 matrix stored like the `modelMatrix` Float32Array: entry `mI` is
`modelMatrix[I]`; the GL uniform consumes it column-major, so the columns
are (m0, m1, m2), (m3, m4, m5), (m6, m7, m8). -/
structure Mat3 where
  m0 : ℝ
  m1 : ℝ
  m2 : ℝ
  m3 : ℝ
  m4 : ℝ
  m5 : ℝ
  m6 : ℝ
  m7 : ℝ
  m8 : ℝ

/-- The identity matrix, the initial value of `modelMatrix`. -/
def matId : Mat3 :=
  { m0 := 1, m1 := 0, m2 := 0, m3 := 0, m4 := 1, m5 := 0, m6 := 0, m7 := 0, m8 := 1 }

/-- makeRotation (makeDemoRotation in the interactive variant): quaternion
of four sinusoids of the elapsed time, turned into a matrix through the
scale factor `s = 2 / (ww + xx + yy + zz)`. -/
noncomputable def makeRotation (time : ℝ) : Mat3 :=
  let w := Real.cos (0.00059 * time)
  let x := Real.sin (0.00097 * time)
  let y := Real.sin (0.00071 * time)
  let z := Real.sin (0.00083 * time)
  let ww := w * w
  let xx := x * x
  let yy := y * y
  let zz := z * z
  let s := 2 / (ww + xx + yy + zz)
  let wx := w * x
  let wy := w * y
  let wz := w * z
  let xy := x * y
  let xz := x * z
  let yz := y * z
  { m0 := 1 - s * (yy + zz), m1 := s * (xy - wz), m2 := s * (xz + wy),
    m3 := s * (xy + wz), m4 := 1 - s * (xx + zz), m5 := s * (yz - wx),
    m6 := s * (xz - wy), m7 := s * (yz + wx), m8 := 1 - s * (xx + yy) }

/-- The squared norm of the demo quaternion never vanishes: the w and z
components would have to be zero together, forcing
`0.00059 t = (2k+1) pi / 2` and `0.00083 t = m pi` at once, which gives the
impossible integer equation `83 (2k+1) = 118 m` (odd = even). -/
lemma demo_quat_norm_ne_zero (t : ℝ) :
    Real.cos (0.00059 * t) * Real.cos (0.00059 * t) +
      Real.sin (0.00097 * t) * Real.sin (0.00097 * t) +
      Real.sin (0.00071 * t) * Real.sin (0.00071 * t) +
      Real.sin (0.00083 * t) * Real.sin (0.00083 * t) ≠ 0 := by
  intro h0
  have q1 := mul_self_nonneg (Real.cos (0.00059 * t))
  have q2 := mul_self_nonneg (Real.sin (0.00097 * t))
  have q3 := mul_self_nonneg (Real.sin (0.00071 * t))
  have q4 := mul_self_nonneg (Real.sin (0.00083 * t))
  have hw : Real.cos (0.00059 * t) = 0 := by
    have : Real.cos (0.00059 * t) * Real.cos (0.00059 * t) = 0 := by nlinarith
    exact mul_self_eq_zero.mp this
  have hz : Real.sin (0.00083 * t) = 0 := by
    have : Real.sin (0.00083 * t) * Real.sin (0.00083 * t) = 0 := by nlinarith
    exact mul_self_eq_zero.mp this
  rw [Real.cos_eq_zero_iff] at hw
  rw [Real.sin_eq_zero_iff] at hz
  obtain ⟨k, hk⟩ := hw
  obtain ⟨m, hm⟩ := hz
  have hcross : (0.00083 : ℝ) * ((2 * (k : ℝ) + 1) * Real.pi / 2) =
      (0.00059 : ℝ) * ((m : ℝ) * Real.pi) := by
    rw [← hk, hm]
    ring
  have h2 : ((83 : ℝ) * (2 * (k : ℝ) + 1)) * Real.pi =
      ((118 : ℝ) * (m : ℝ)) * Real.pi := by nlinarith [hcross]
  have key : (83 : ℝ) * (2 * (k : ℝ) + 1) = 118 * (m : ℝ) :=
    mul_right_cancel₀ Real.pi_ne_zero h2
  have keyZ : (83 : ℤ) * (2 * k + 1) = 118 * m := by exact_mod_cast key
  omega

/-- The six orthonormality identities of the quaternion-to-matrix formula,
for any quaternion of nonzero squared norm. -/
lemma quat_matrix_orthonormal (w x y z : ℝ)
    (h : w * w + x * x + y * y + z * z ≠ 0) :
    ((1 - 2 / (w * w + x * x + y * y + z * z) * (y * y + z * z)) ^ 2 +
        (2 / (w * w + x * x + y * y + z * z) * (x * y - w * z)) ^ 2 +
        (2 / (w * w + x * x + y * y + z * z) * (x * z + w * y)) ^ 2 = 1) ∧
      ((2 / (w * w + x * x + y * y + z * z) * (x * y + w * z)) ^ 2 +
        (1 - 2 / (w * w + x * x + y * y + z * z) * (x * x + z * z)) ^ 2 +
        (2 / (w * w + x * x + y * y + z * z) * (y * z - w * x)) ^ 2 = 1) ∧
      ((2 / (w * w + x * x + y * y + z * z) * (x * z - w * y)) ^ 2 +
        (2 / (w * w + x * x + y * y + z * z) * (y * z + w * x)) ^ 2 +
        (1 - 2 / (w * w + x * x + y * y + z * z) * (x * x + y * y)) ^ 2 = 1) ∧
      ((1 - 2 / (w * w + x * x + y * y + z * z) * (y * y + z * z)) *
          (2 / (w * w + x * x + y * y + z * z) * (x * y + w * z)) +
        (2 / (w * w + x * x + y * y + z * z) * (x * y - w * z)) *
          (1 - 2 / (w * w + x * x + y * y + z * z) * (x * x + z * z)) +
        (2 / (w * w + x * x + y * y + z * z) * (x * z + w * y)) *
          (2 / (w * w + x * x + y * y + z * z) * (y * z - w * x)) = 0) ∧
      ((1 - 2 / (w * w + x * x + y * y + z * z) * (y * y + z * z)) *
          (2 / (w * w + x * x + y * y + z * z) * (x * z - w * y)) +
        (2 / (w * w + x * x + y * y + z * z) * (x * y - w * z)) *
          (2 / (w * w + x * x + y * y + z * z) * (y * z + w * x)) +
        (2 / (w * w + x * x + y * y + z * z) * (x * z + w * y)) *
          (1 - 2 / (w * w + x * x + y * y + z * z) * (x * x + y * y)) = 0) ∧
      ((2 / (w * w + x * x + y * y + z * z) * (x * y + w * z)) *
          (2 / (w * w + x * x + y * y + z * z) * (x * z - w * y)) +
        (1 - 2 / (w * w + x * x + y * y + z * z) * (x * x + z * z)) *
          (2 / (w * w + x * x + y * y + z * z) * (y * z + w * x)) +
        (2 / (w * w + x * x + y * y + z * z) * (y * z - w * x)) *
          (1 - 2 / (w * w + x * x + y * y + z * z) * (x * x + y * y)) = 0) := by
  refine ⟨?_, ?_, ?_, ?_, ?_, ?_⟩ <;> (field_simp; ring)

/-- C5: for every elapsed time, the matrix built by the demo rotation from
the quaternion (cos(0.00059 t), sin(0.00097 t), sin(0.00071 t),
sin(0.00083 t)) through the scale factor s = 2 / (w2 + x2 + y2 + z2) has
columns of unit length that are pairwise orthogonal, exactly over the
reals. -/
theorem makeRotation_orthonormal (t : ℝ) :
    ((makeRotation t).m0 ^ 2 + (makeRotation t).m1 ^ 2 +
        (makeRotation t).m2 ^ 2 = 1) ∧
      ((makeRotation t).m3 ^ 2 + (makeRotation t).m4 ^ 2 +
        (makeRotation t).m5 ^ 2 = 1) ∧
      ((makeRotation t).m6 ^ 2 + (makeRotation t).m7 ^ 2 +
        (makeRotation t).m8 ^ 2 = 1) ∧
      ((makeRotation t).m0 * (makeRotation t).m3 +
        (makeRotation t).m1 * (makeRotation t).m4 +
        (makeRotation t).m2 * (makeRotation t).m5 = 0) ∧
      ((makeRotation t).m0 * (makeRotation t).m6 +
        (makeRotation t).m1 * (makeRotation t).m7 +
        (makeRotation t).m2 * (makeRotation t).m8 = 0) ∧
      ((makeRotation t).m3 * (makeRotation t).m6 +
        (makeRotation t).m4 * (makeRotation t).m7 +
        (makeRotation t).m5 * (makeRotation t).m8 = 0) := by
  have h := demo_quat_norm_ne_zero t
  have H := quat_matrix_orthonormal (Real.cos (0.00059 * t))
    (Real.sin (0.00097 * t)) (Real.sin (0.00071 * t)) (Real.sin (0.00083 * t)) h
  simp only [makeRotation]
  exact H

/-- C6: at elapsed time 0 the demo rotation is exactly the identity matrix:
the quaternion is (1, 0, 0, 0). -/
theorem makeRotation_zero_identity : makeRotation 0 = matId := by
  simp only [makeRotation, matId, mul_zero, Real.cos_zero, Real.sin_zero]
  norm_num

/-- The mutable interaction state of the interactive variant: the model
matrix, the pointer coordinates of the last and current frame, and the
drag/throw scalar. -/
structure MouseState where
  modelMatrix : Mat3
  last_x : ℝ
  last_y : ℝ
  curr_x : ℝ
  curr_y : ℝ
  throw_state : ℝ

/-- applyMouseRotation: decay the throw scalar, derive the swapped pointer
deltas, build the small-angle quaternion matrix with w = 1, z = 0, multiply
it into the model matrix (the temp0/temp1 dance computes a simultaneous
product), and snap the last pointer to the current one only when the
updated throw scalar is exactly zero. -/
noncomputable def applyMouseRotation (st : MouseState) (scale dt : ℝ) :
    MouseState :=
  let speed := (-1.4 / scale) * (if st.throw_state = 0 then 1 else st.throw_state)
  let throw_state := st.throw_state * Real.exp (-dt * 0.004)
  let dy := (st.curr_x - st.last_x) * speed
  let dx := (st.curr_y - st.last_y) * speed
  let xx := dx * dx
  let yy := dy * dy
  let xy := dx * dy
  let s := 2 / (1 + xx + yy)
  let mm0 := 1 - s * yy
  let mm1 := s * xy
  let mm2 := s * dy
  let mm3 := s * xy
  let mm4 := 1 - s * xx
  let mm5 := s * (-dx)
  let mm6 := s * (-dy)
  let mm7 := s * dx
  let mm8 := 1 - s * (xx + yy)
  let m := st.modelMatrix
  let mNew : Mat3 :=
    { m0 := m.m0 * mm0 + m.m1 * mm3 + m.m2 * mm6,
      m1 := m.m0 * mm1 + m.m1 * mm4 + m.m2 * mm7,
      m2 := m.m0 * mm2 + m.m1 * mm5 + m.m2 * mm8,
      m3 := m.m3 * mm0 + m.m4 * mm3 + m.m5 * mm6,
      m4 := m.m3 * mm1 + m.m4 * mm4 + m.m5 * mm7,
      m5 := m.m3 * mm2 + m.m4 * mm5 + m.m5 * mm8,
      m6 := m.m6 * mm0 + m.m7 * mm3 + m.m8 * mm6,
      m7 := m.m6 * mm1 + m.m7 * mm4 + m.m8 * mm7,
      m8 := m.m6 * mm2 + m.m7 * mm5 + m.m8 * mm8 }
  if throw_state = 0 then
    { st with modelMatrix := mNew, throw_state := throw_state,
              last_x := st.curr_x, last_y := st.curr_y }
  else
    { st with modelMatrix := mNew, throw_state := throw_state }

/-- C7: with zero pointer delta the incremental rotation is the identity,
so the drag update leaves all nine entries of the model matrix unchanged,
for every starting matrix, throw scalar and frame time. -/
theorem applyMouseRotation_zero_delta (st : MouseState) (scale dt : ℝ)
    (_hs : scale ≠ 0) (hx : st.curr_x = st.last_x) (hy : st.curr_y = st.last_y) :
    (applyMouseRotation st scale dt).modelMatrix = st.modelMatrix := by
  simp only [applyMouseRotation, hx, hy, sub_self, zero_mul, mul_zero,
    neg_zero, mul_neg, add_zero, zero_add, mul_one, sub_zero]
  split_ifs <;> simp

/-- Witness state for the drag-update theorems: identity matrix, pointer
resting at (3, 4), actively dragging. -/
def restingDrag : MouseState :=
  { modelMatrix := matId, last_x := 3, last_y := 4, curr_x := 3, curr_y := 4,
    throw_state := 0 }

/-- Witness for C7 at a concrete resting drag state. -/
theorem applyMouseRotation_zero_delta_witness :
    (2 : ℝ) ≠ 0 ∧
      (applyMouseRotation restingDrag 2 5).modelMatrix =
        restingDrag.modelMatrix :=
  ⟨two_ne_zero, applyMouseRotation_zero_delta restingDrag 2 5 two_ne_zero rfl rfl⟩

/-- C10: while in throw mode (throw_state > 0) the per-frame update leaves
last_x, last_y, curr_x and curr_y untouched: the decayed throw scalar is
still nonzero, so the pointer snap of the dragging branch is skipped and
the release-time delta is replayed each frame. -/
theorem applyMouseRotation_throw_frame (st : MouseState) (scale dt : ℝ)
    (h : 0 < st.throw_state) :
    (applyMouseRotation st scale dt).last_x = st.last_x ∧
      (applyMouseRotation st scale dt).last_y = st.last_y ∧
      (applyMouseRotation st scale dt).curr_x = st.curr_x ∧
      (applyMouseRotation st scale dt).curr_y = st.curr_y := by
  have hne : st.throw_state * Real.exp (-dt * 0.004) ≠ 0 :=
    ne_of_gt (mul_pos h (Real.exp_pos _))
  simp only [applyMouseRotation]
  rw [if_neg hne]
  exact ⟨rfl, rfl, rfl, rfl⟩

/-- Witness state for the throw-mode frame theorem: one frame after a
release, with distinct last and current pointer coordinates. -/
def thrownState : MouseState :=
  { modelMatrix := matId, last_x := 3, last_y := 4, curr_x := 7, curr_y := 8,
    throw_state := 1 }

/-- Witness for C10 at a concrete thrown state. -/
theorem applyMouseRotation_throw_frame_witness :
    (0 : ℝ) < 1 ∧
      (applyMouseRotation thrownState 2 5).last_x = thrownState.last_x ∧
      (applyMouseRotation thrownState 2 5).last_y = thrownState.last_y ∧
      (applyMouseRotation thrownState 2 5).curr_x = thrownState.curr_x ∧
      (applyMouseRotation thrownState 2 5).curr_y = thrownState.curr_y :=
  ⟨one_pos, applyMouseRotation_throw_frame thrownState 2 5 one_pos⟩

/-- The throw scalar along the frames after a pointer release: onUp sets it
to 1.0 and every frame multiplies by `exp(-dt * 0.004)`. -/
noncomputable def throwSeq (dt : ℕ → ℝ) : ℕ → ℝ
  | 0 => 1.0
  | n + 1 => throwSeq dt n * Real.exp (-(dt n) * 0.004)

/-- C8: after a release, with positive frame times, the throw scalar is
strictly decreasing, stays strictly positive, and never reaches zero. -/
theorem throwSeq_decay (dt : ℕ → ℝ) (hdt : ∀ n, 0 < dt n) :
    ∀ n, 0 < throwSeq dt n ∧ throwSeq dt n ≠ 0 ∧
      throwSeq dt (n + 1) < throwSeq dt n := by
  have hpos : ∀ n, 0 < throwSeq dt n := by
    intro n
    induction n with
    | zero => norm_num [throwSeq]
    | succ n ih => exact mul_pos ih (Real.exp_pos _)
  intro n
  refine ⟨hpos n, ne_of_gt (hpos n), ?_⟩
  have hexp : Real.exp (-(dt n) * 0.004) < 1 := by
    rw [Real.exp_lt_one_iff]
    have := hdt n
    nlinarith
  calc throwSeq dt (n + 1) = throwSeq dt n * Real.exp (-(dt n) * 0.004) := rfl
    _ < throwSeq dt n * 1 := by
        exact mul_lt_mul_of_pos_left hexp (hpos n)
    _ = throwSeq dt n := mul_one _

/-- Witness for C8 with a constant one-millisecond frame time, at the
fourth frame. -/
theorem throwSeq_decay_witness :
    (0 : ℝ) < 1 ∧ 0 < throwSeq (fun _ => 1) 3 ∧
      throwSeq (fun _ => 1) 4 < throwSeq (fun _ => 1) 3 :=
  ⟨one_pos, (throwSeq_decay (fun _ => 1) (fun _ => one_pos) 3).1,
    (throwSeq_decay (fun _ => 1) (fun _ => one_pos) 3).2.2⟩

/-- The field of view constant of the render loop:
`1 / Math.tan(35 / 2 * Math.PI / 180)`. -/
noncomputable def fov : ℝ := 1 / Real.tan (35 / 2 * Real.pi / 180)

/-- The projection vector the render loop uploads every frame, as a function
of the current viewport size, with `scale = Math.min(height, width)`. -/
noncomputable def projVector (width height : ℝ) : ℝ × ℝ × ℝ :=
  let scale := min height width
  (fov * scale / width, fov * scale / height, -fov)

/-- The projection contract in the words of the spec: a field of view of
`1 / tan(halfAngleRadians)` with a half angle of 17.5 degrees, and
`projX = fov * minDim / width`, `projY = fov * minDim / height`,
`projZ = -fov`, where minDim is the minimum of width and height. -/
noncomputable def projVectorSpec (width height : ℝ) : ℝ × ℝ × ℝ :=
  let fovSpec := 1 / Real.tan (17.5 * (Real.pi / 180))
  let minDim := min width height
  (fovSpec * minDim / width, fovSpec * minDim / height, -fovSpec)

/-- C9: the projection scalars computed by the render loop from the current
viewport size are exactly the spec contract with a 17.5 degree half
angle. -/
theorem projVector_matches_spec (width height : ℝ) :
    projVector width height = projVectorSpec width height := by
  simp only [projVector, projVectorSpec, fov]
  rw [show (17.5 : ℝ) * (Real.pi / 180) = 35 / 2 * Real.pi / 180 from by ring]
  rw [min_comm width height]

end Tesseract
